import Mathlib

/-!
# Verification of the `avail` cron-expression library

A shallow embedding, in Lean 4, of the Go package `avail`
(`avail.go`, `identifyTerm.go`, and the field-parsing file), together
with theorems settling the specification's claims about it.

Modelling conventions:
* Go strings are `List Char`; Go `int` (64-bit) is `Int`, with the
  overflow behaviour of `strconv.Atoi` and of `end+1` in
  `generateSequentialSet` made explicit where it matters.
* Go `map[int]struct{}` value sets are `Finset Int` (a nil map behaves
  as the empty set under lookup, matching `∅`).
* Go error values are replaced by enums naming the error site; the Go
  code only ever inspects errors for non-nilness, so this is faithful.
* `identifyTermKind` iterates a Go map (`for regex := range termRegexToType`),
  whose iteration order is unspecified; the embedding therefore takes the
  iteration order as an explicit parameter, with `regexKinds` (the map
  literal's declaration order) as the canonical order used by `new`.
-/

namespace Avail

/-- Value of a decimal digit string, most significant digit first
(the accumulation `strconv.Atoi` performs on the digit characters). -/
def digitsToNat (ds : List Char) : Nat :=
  ds.foldl (fun acc c => acc * 10 + (c.toNat - '0'.toNat)) 0

/-- Go `strconv.Atoi` on a 64-bit platform: an optional leading `+` or `-`
sign followed by a nonempty string of decimal digits, whose signed value
must fit in `int64`; `none` models a non-nil error (`ErrSyntax` or
`ErrRange` — the callers only test `err != nil`). -/
def atoi (s : List Char) : Option Int :=
  match s with
  | [] => none
  | c :: rest =>
    let digits := if c = '-' ∨ c = '+' then rest else c :: rest
    if digits = [] ∨ digits.all Char.isDigit = false then none
    else
      let v : Int := if c = '-' then -(digitsToNat digits : Int) else (digitsToNat digits : Int)
      if v < -(2 ^ 63) ∨ 2 ^ 63 - 1 < v then none else some v

/-- Go `strings.Split(s, sep)` for a single-character separator: the
list of (possibly empty) chunks between occurrences of `sep`; always
returns at least one chunk. -/
def splitOnChar (sep : Char) : List Char → List (List Char)
  | [] => [[]]
  | c :: rest =>
    if c = sep then [] :: splitOnChar sep rest
    else
      match splitOnChar sep rest with
      | [] => [[c]]
      | h :: t => (c :: h) :: t

/-- `spanRegex = ^[0-9]+-[0-9]+$` (from `identifyTerm.go`): one or more
digits, a hyphen, one or more digits, anchored.  Maximal-munch on the
leading digit run is exact here because `-` is not a digit. -/
def spanRegexMatch (s : List Char) : Bool :=
  match s.dropWhile Char.isDigit with
  | [] => false
  | c :: rest =>
    (c = '-') && (!(s.takeWhile Char.isDigit).isEmpty) && (!rest.isEmpty) &&
      rest.all Char.isDigit

/-- `wildcardRegex = ^\*$`: the term is exactly `*`. -/
def wildcardRegexMatch (s : List Char) : Bool :=
  s = ['*']

/-- `listRegex = ,+` (unanchored): matches iff the term contains a comma. -/
def listRegexMatch (s : List Char) : Bool :=
  s.any fun c => c = ','

/-- `valueRegex = ^([0-9]+)$`: a nonempty all-digit term. -/
def valueRegexMatch (s : List Char) : Bool :=
  (!s.isEmpty) && s.all Char.isDigit

/-- `termKind` (enum from `identifyTerm.go`). -/
inductive TermKind where
  | span
  | wildcard
  | list
  | value
  | unknown
deriving DecidableEq, Repr

/-- The map literal `termRegexToType`, in declaration order. -/
def regexKinds : List ((List Char → Bool) × TermKind) :=
  [(spanRegexMatch, .span), (wildcardRegexMatch, .wildcard),
   (listRegexMatch, .list), (valueRegexMatch, .value)]

/-- `identifyTermKind`, with the map-iteration order made explicit: return
the kind of the first regex in `order` matching the term, else `unknown`. -/
def identifyTermKindWith (order : List ((List Char → Bool) × TermKind))
    (term : List Char) : TermKind :=
  match order with
  | [] => .unknown
  | q :: rest => if q.1 term then q.2 else identifyTermKindWith rest term

/-- `identifyTermKind` at the canonical iteration order. -/
def identifyTermKind (term : List Char) : TermKind :=
  identifyTermKindWith regexKinds term

/-- The error sites of the field parsers.  In Go these are distinct
`fmt.Errorf` messages; the spec names them ParseError, RangeOrderError,
BoundsError and UnrecognizedTermError respectively. -/
inductive FieldError where
  | parseError
  | rangeOrderError
  | boundsError
  | unknownTerm
deriving DecidableEq, Repr

/-- The six `fieldType` string constants (`type fieldType string`). -/
def minute : List Char := "minute".data

def hour : List Char := "hour".data

def day : List Char := "day".data

def month : List Char := "month".data

def weekday : List Char := "weekday".data

def year : List Char := "year".data

/-- `Field` from the field-parsing file: kind tag, raw term, bounds, and
the expanded membership set (`Values map[int]struct{}`). -/
structure Field where
  kind : List Char
  term : List Char
  min : Int
  max : Int
  values : Finset Int
deriving DecidableEq

/-- `generateSequentialSet(start, end)`: `for i := start; i < end+1; i++`
inserts `i`.  When `end` is `maxInt64`, `end+1` wraps to `minInt64` in Go
and the loop body never runs, so the set is empty; otherwise the set is
exactly the integers in `[start, end]`. -/
def generateSequentialSet (start finish : Int) : Finset Int :=
  if finish = 2 ^ 63 - 1 then ∅ else Finset.Icc start finish

/-- `Field.parseWildcardField`. -/
def parseWildcardField (fmin fmax : Int) : Finset Int :=
  generateSequentialSet fmin fmax

/-- `Field.parseSpanField`: split the term on `-`, `Atoi` both parts,
require strict order and bounds, expand.  The fallback arm is unreachable
for span-classified terms (Go indexes `values[1]` and would panic on a
term with no hyphen). -/
def parseSpanField (term : List Char) (fmin fmax : Int) : Except FieldError (Finset Int) :=
  match splitOnChar '-' term with
  | v0 :: v1 :: _ =>
    match atoi v0 with
    | none => .error .parseError
    | some a =>
      match atoi v1 with
      | none => .error .parseError
      | some b =>
        if a ≥ b then .error .rangeOrderError
        else if a < fmin then .error .boundsError
        else if b > fmax then .error .boundsError
        else .ok (generateSequentialSet a b)
  | _ => .error .parseError

/-- `Field.parseValueField`: `Atoi` the whole term, check bounds,
produce a singleton set. -/
def parseValueField (term : List Char) (fmin fmax : Int) : Except FieldError (Finset Int) :=
  match atoi term with
  | none => .error .parseError
  | some v =>
    if v < fmin then .error .boundsError
    else if v > fmax then .error .boundsError
    else .ok {v}

/-- The `for _, rawValue := range values` loop of `Field.parseListField`,
threading the set being built. -/
def parseListLoop (fmin fmax : Int) : List (List Char) → Finset Int → Except FieldError (Finset Int)
  | [], set => .ok set
  | rawValue :: rest, set =>
    match atoi rawValue with
    | none => .error .parseError
    | some v =>
      if v < fmin then .error .boundsError
      else if v > fmax then .error .boundsError
      else parseListLoop fmin fmax rest (insert v set)

/-- `Field.parseListField`: split the term on `,` and run the loop on an
empty set. -/
def parseListField (term : List Char) (fmin fmax : Int) : Except FieldError (Finset Int) :=
  parseListLoop fmin fmax (splitOnChar ',' term) ∅

/-- `Field.parse`: dispatch on the classified term kind.  (In Go the
span/value/list errors are wrapped with the field kind by `fmt.Errorf`;
the error site is preserved, which is all the callers observe.) -/
def fieldParseWith (order : List ((List Char → Bool) × TermKind))
    (term : List Char) (fmin fmax : Int) : Except FieldError (Finset Int) :=
  match identifyTermKindWith order term with
  | .wildcard => .ok (parseWildcardField fmin fmax)
  | .span => parseSpanField term fmin fmax
  | .value => parseValueField term fmin fmax
  | .list => parseListField term fmin fmax
  | .unknown => .error .unknownTerm

/-- `newField(kind, term, min, max)`: build the `Field` record and run
`parse` on it; on error return the zero `Field` alongside the error (the
Go code returns `Field{}, err` — only the error is ever used). -/
def newFieldWith (order : List ((List Char → Bool) × TermKind))
    (kind term : List Char) (fmin fmax : Int) : Except FieldError Field :=
  match fieldParseWith order term fmin fmax with
  | .error e => .error e
  | .ok vals => .ok ⟨kind, term, fmin, fmax, vals⟩

/-- `newField` at the canonical map-iteration order. -/
def newField (kind term : List Char) (fmin fmax : Int) : Except FieldError Field :=
  newFieldWith regexKinds kind term fmin fmax

/-- All ways to take a nonempty digit prefix (`\d+`) off the front of a
string, as (prefix, remainder) pairs. -/
def digitPrefixSplits : List Char → List (List Char × List Char)
  | [] => []
  | c :: rest =>
    if c.isDigit then
      ([c], rest) :: (digitPrefixSplits rest).map (fun p => (c :: p.1, p.2))
    else []

/-- All remainders after consuming a prefix matching `(\d+,)+\d+`
(one or more digit-comma groups, then digits).  The fuel bounds the
number of groups; callers pass at least the string length. -/
def listTermRemainders : Nat → List Char → List (List Char)
  | 0, _ => []
  | fuel + 1, s =>
    (digitPrefixSplits s).flatMap fun p =>
      match p.2 with
      | ',' :: r2 => ((digitPrefixSplits r2).map Prod.snd) ++ listTermRemainders fuel r2
      | _ => []

/-- All remainders after consuming one alternative of the term group
`((\d+,)+\d+|(\d+(-)\d+)|\d+|\*)` of `cronExpressionRegex`. -/
def termRemainders (s : List Char) : List (List Char) :=
  listTermRemainders (s.length + 1) s
    ++ ((digitPrefixSplits s).flatMap fun p =>
         match p.2 with
         | '-' :: r2 => (digitPrefixSplits r2).map Prod.snd
         | _ => [])
    ++ (digitPrefixSplits s).map Prod.snd
    ++ (match s with | '*' :: r => [r] | _ => [])

/-- All remainders after one `(term ?)` block: a term alternative
followed by an optional single space. -/
def blockRemainders (s : List Char) : List (List Char) :=
  (termRemainders s).flatMap fun r =>
    r :: (match r with | ' ' :: r2 => [r2] | _ => [])

/-- Acceptance of `n` further `(term ?)` blocks followed by end of
string. -/
def cronAccept : Nat → List Char → Bool
  | 0, s => s.isEmpty
  | n + 1, s => (blockRemainders s).any fun r => cronAccept n r

/-- Membership of the anchored language of
`cronExpressionRegex = ^((((\d+,)+\d+|(\d+(-)\d+)|\d+|\*) ?){6})$`
(from `avail.go`); `MatchString` on an anchored pattern is language
membership. -/
def cronExpressionMatch (s : List Char) : Bool :=
  cronAccept 6 s

/-- `ParsedExpression`: the six built fields. -/
structure ParsedExpression where
  minutes : Field
  hours : Field
  days : Field
  months : Field
  weekdays : Field
  years : Field
deriving DecidableEq

/-- `Timeframe`: the raw expression string plus its parsed form. -/
structure Timeframe where
  expression : List Char
  parsedExpression : ParsedExpression
deriving DecidableEq

/-- The Go zero value `Field{}`: empty kind and term strings, zero
bounds, and a nil `Values` map (which behaves as the empty set). -/
def zeroField : Field :=
  ⟨[], [], 0, 0, ∅⟩

/-- The Go zero value `Timeframe{}` returned alongside every `New`
error. -/
def zeroTimeframe : Timeframe :=
  ⟨[], ⟨zeroField, zeroField, zeroField, zeroField, zeroField, zeroField⟩⟩

/-- The possible error sites of `New`; Go distinguishes the two
malformed-expression messages only by text. -/
inductive CronError where
  | malformedExpression
  | fieldError (e : FieldError)
deriving DecidableEq, Repr

/-- `New(expression)`: regex pre-check, split on single spaces into
exactly six terms, then build the six fields in order with their fixed
bounds; any failure returns the zero `Timeframe` and a non-nil error.
The classifier's map-iteration order is the explicit `order`
parameter. -/
def newWith (order : List ((List Char → Bool) × TermKind))
    (s : List Char) : Timeframe × Option CronError :=
  if cronExpressionMatch s then
    match splitOnChar ' ' s with
    | [t0, t1, t2, t3, t4, t5] =>
      match newFieldWith order minute t0 0 59 with
      | .error e => (zeroTimeframe, some (.fieldError e))
      | .ok minutes =>
        match newFieldWith order hour t1 0 23 with
        | .error e => (zeroTimeframe, some (.fieldError e))
        | .ok hours =>
          match newFieldWith order day t2 1 31 with
          | .error e => (zeroTimeframe, some (.fieldError e))
          | .ok days =>
            match newFieldWith order month t3 1 12 with
            | .error e => (zeroTimeframe, some (.fieldError e))
            | .ok months =>
              match newFieldWith order weekday t4 0 6 with
              | .error e => (zeroTimeframe, some (.fieldError e))
              | .ok weekdays =>
                match newFieldWith order year t5 1970 2100 with
                | .error e => (zeroTimeframe, some (.fieldError e))
                | .ok years =>
                  (⟨s, ⟨minutes, hours, days, months, weekdays, years⟩⟩, none)
    | _ => (zeroTimeframe, some .malformedExpression)
  else (zeroTimeframe, some .malformedExpression)

/-- `New` at the canonical map-iteration order. -/
def new (s : List Char) : Timeframe × Option CronError :=
  newWith regexKinds s

/-- The components Go's `time.Time` accessors hand to `Able`:
`Minute()`, `Hour()`, `Day()`, `int(Month())`, `int(Weekday())`,
`Year()`. -/
structure GoTime where
  minute : Int
  hour : Int
  day : Int
  month : Int
  weekday : Int
  year : Int
deriving DecidableEq

/-- The ranges Go's `time.Time` accessors guarantee for any timestamp:
minute 0–59, hour 0–23, day of month 1–31, month 1–12, weekday 0–6
(Sunday = 0).  The year is unconstrained (Go years may lie far outside
1970–2100). -/
def ValidTime (t : GoTime) : Prop :=
  0 ≤ t.minute ∧ t.minute ≤ 59 ∧ 0 ≤ t.hour ∧ t.hour ≤ 23 ∧
    1 ≤ t.day ∧ t.day ≤ 31 ∧ 1 ≤ t.month ∧ t.month ≤ 12 ∧
    0 ≤ t.weekday ∧ t.weekday ≤ 6

instance (t : GoTime) : Decidable (ValidTime t) := by
  unfold ValidTime; infer_instance

/-- `Timeframe.Able(time)`: the Go method iterates the literal list
minute, hour, day, month, weekday, year and returns `false` at the first
component absent from its field's `Values` set; unrolling that loop
gives this chain of membership tests, in the same order. -/
def able (a : Timeframe) (t : GoTime) : Bool :=
  if t.minute ∉ a.parsedExpression.minutes.values then false
  else if t.hour ∉ a.parsedExpression.hours.values then false
  else if t.day ∉ a.parsedExpression.days.values then false
  else if t.month ∉ a.parsedExpression.months.values then false
  else if t.weekday ∉ a.parsedExpression.weekdays.values then false
  else if t.year ∉ a.parsedExpression.years.values then false
  else true

/-- Decidable equality for `Except`, used to evaluate the parsers on
concrete inputs. -/
def exceptDecEq {α β : Type} [DecidableEq α] [DecidableEq β] :
    DecidableEq (Except α β) := fun x y =>
  match x, y with
  | .error a, .error b =>
    if h : a = b then .isTrue (by rw [h])
    else .isFalse (fun hc => h (by cases hc; rfl))
  | .ok a, .ok b =>
    if h : a = b then .isTrue (by rw [h])
    else .isFalse (fun hc => h (by cases hc; rfl))
  | .error _, .ok _ => .isFalse (fun hc => Except.noConfusion hc)
  | .ok _, .error _ => .isFalse (fun hc => Except.noConfusion hc)

instance {α β : Type} [DecidableEq α] [DecidableEq β] :
    DecidableEq (Except α β) := exceptDecEq

/-! ## Characterizations of the four term regexes -/

lemma wildcardRegexMatch_eq_true_iff (s : List Char) :
    wildcardRegexMatch s = true ↔ s = ['*'] := by
  simp [wildcardRegexMatch]

lemma listRegexMatch_eq_true_iff (s : List Char) :
    listRegexMatch s = true ↔ ',' ∈ s := by
  simp only [listRegexMatch, List.any_eq_true, decide_eq_true_eq]
  constructor
  · rintro ⟨c, hc, rfl⟩; exact hc
  · intro h; exact ⟨',', h, rfl⟩

lemma valueRegexMatch_eq_true_iff (s : List Char) :
    valueRegexMatch s = true ↔ s ≠ [] ∧ s.all Char.isDigit = true := by
  simp [valueRegexMatch, List.isEmpty_iff]

lemma spanRegexMatch_eq_true_iff (s : List Char) :
    spanRegexMatch s = true ↔
      ∃ d1 d2, s = d1 ++ '-' :: d2 ∧ d1 ≠ [] ∧ d1.all Char.isDigit = true ∧
        d2 ≠ [] ∧ d2.all Char.isDigit = true := by
  constructor
  · intro h
    unfold spanRegexMatch at h
    cases hdrop : s.dropWhile Char.isDigit with
    | nil => rw [hdrop] at h; exact absurd h (by simp)
    | cons c rest =>
      rw [hdrop] at h
      simp only [Bool.and_eq_true, decide_eq_true_eq, Bool.not_eq_true',
        List.isEmpty_eq_false] at h
      obtain ⟨⟨⟨rfl, h1⟩, h2⟩, h3⟩ := h
      refine ⟨s.takeWhile Char.isDigit, rest, ?_, h1, List.all_takeWhile, h2, h3⟩
      conv_lhs => rw [← List.takeWhile_append_dropWhile (p := Char.isDigit) (l := s)]
      rw [hdrop]
  · rintro ⟨d1, d2, rfl, h1, h2, h3, h4⟩
    have hall : ∀ a ∈ d1, Char.isDigit a = true := List.all_eq_true.mp h2
    have hdrop : (d1 ++ '-' :: d2).dropWhile Char.isDigit = '-' :: d2 := by
      rw [List.dropWhile_append_of_pos hall]
      simp [List.dropWhile]
    have htake : (d1 ++ '-' :: d2).takeWhile Char.isDigit = d1 := by
      rw [List.takeWhile_append_of_pos hall]
      simp [List.takeWhile]
    unfold spanRegexMatch
    rw [hdrop, htake]
    simp [h1, h3, h4]

lemma spanRegexMatch_chars (s : List Char) (h : spanRegexMatch s = true) :
    ∀ c ∈ s, c.isDigit = true ∨ c = '-' := by
  obtain ⟨d1, d2, rfl, _, h2, _, h4⟩ := (spanRegexMatch_eq_true_iff s).mp h
  intro c hc
  rcases List.mem_append.mp hc with hc1 | hc2
  · exact .inl (List.all_eq_true.mp h2 c hc1)
  · rcases List.mem_cons.mp hc2 with rfl | hc3
    · exact .inr rfl
    · exact .inl (List.all_eq_true.mp h4 c hc3)

/-! ## No term matches more than one of the four regexes -/

lemma span_wildcard_excl (s : List Char) (hs : spanRegexMatch s = true)
    (hw : wildcardRegexMatch s = true) : False := by
  rw [wildcardRegexMatch_eq_true_iff] at hw
  subst hw
  exact absurd hs (by decide)

lemma list_wildcard_excl (s : List Char) (hl : listRegexMatch s = true)
    (hw : wildcardRegexMatch s = true) : False := by
  rw [wildcardRegexMatch_eq_true_iff] at hw
  subst hw
  exact absurd hl (by decide)

lemma value_wildcard_excl (s : List Char) (hv : valueRegexMatch s = true)
    (hw : wildcardRegexMatch s = true) : False := by
  rw [wildcardRegexMatch_eq_true_iff] at hw
  subst hw
  exact absurd hv (by decide)

lemma span_list_excl (s : List Char) (hs : spanRegexMatch s = true)
    (hl : listRegexMatch s = true) : False := by
  rw [listRegexMatch_eq_true_iff] at hl
  rcases spanRegexMatch_chars s hs ',' hl with h | h <;> exact absurd h (by decide)

lemma span_value_excl (s : List Char) (hs : spanRegexMatch s = true)
    (hv : valueRegexMatch s = true) : False := by
  obtain ⟨d1, d2, rfl, h1, _, _, _⟩ := (spanRegexMatch_eq_true_iff s).mp hs
  obtain ⟨_, hall⟩ := (valueRegexMatch_eq_true_iff _).mp hv
  have : Char.isDigit '-' = true := List.all_eq_true.mp hall '-' (by simp)
  exact absurd this (by decide)

lemma list_value_excl (s : List Char) (hl : listRegexMatch s = true)
    (hv : valueRegexMatch s = true) : False := by
  rw [listRegexMatch_eq_true_iff] at hl
  obtain ⟨_, hall⟩ := (valueRegexMatch_eq_true_iff _).mp hv
  have : Char.isDigit ',' = true := List.all_eq_true.mp hall ',' hl
  exact absurd this (by decide)

/-! ## Determinism of the classifier over the map-iteration order -/

lemma identifyTermKindWith_eq_filter (order : List ((List Char → Bool) × TermKind))
    (term : List Char) :
    identifyTermKindWith order term =
      match order.filter (fun p => p.1 term) with
      | [] => TermKind.unknown
      | p :: _ => p.2 := by
  induction order with
  | nil => rfl
  | cons q rest ih =>
    cases hq : q.1 term with
    | false => simp [identifyTermKindWith, hq, List.filter_cons, ih]
    | true => simp [identifyTermKindWith, hq, List.filter_cons]

lemma filter_regexKinds_length_le_one (term : List Char) :
    (regexKinds.filter (fun p => p.1 term)).length ≤ 1 := by
  cases hs : spanRegexMatch term <;> cases hw : wildcardRegexMatch term <;>
    cases hl : listRegexMatch term <;> cases hv : valueRegexMatch term <;>
    simp [regexKinds, List.filter_cons, hs, hw, hl, hv]
  · exact absurd (list_value_excl term hl hv) (by simp)
  · exact absurd (value_wildcard_excl term hv hw) (by simp)
  · exact absurd (list_wildcard_excl term hl hw) (by simp)
  · exact absurd (list_wildcard_excl term hl hw) (by simp)
  · exact absurd (span_value_excl term hs hv) (by simp)
  · exact absurd (span_list_excl term hs hl) (by simp)
  · exact absurd (span_list_excl term hs hl) (by simp)
  · exact absurd (span_wildcard_excl term hs hw) (by simp)
  · exact absurd (span_wildcard_excl term hs hw) (by simp)
  · exact absurd (span_wildcard_excl term hs hw) (by simp)
  · exact absurd (span_wildcard_excl term hs hw) (by simp)

lemma identifyTermKindWith_perm (order : List ((List Char → Bool) × TermKind))
    (h : order.Perm regexKinds) (term : List Char) :
    identifyTermKindWith order term = identifyTermKind term := by
  rw [identifyTermKind, identifyTermKindWith_eq_filter, identifyTermKindWith_eq_filter]
  have hperm := List.Perm.filter (fun p => p.1 term) h
  have hlen := filter_regexKinds_length_le_one term
  cases hf : regexKinds.filter (fun p => p.1 term) with
  | nil =>
    rw [hf] at hperm
    rw [List.perm_nil.mp hperm]
  | cons p t =>
    rw [hf] at hperm hlen
    cases t with
    | nil => rw [List.perm_singleton.mp hperm]
    | cons q t2 => simp at hlen

/-! ## The classifier at the canonical order, per kind -/

lemma identifyTermKind_cases (term : List Char) :
    identifyTermKind term =
      if spanRegexMatch term then .span
      else if wildcardRegexMatch term then .wildcard
      else if listRegexMatch term then .list
      else if valueRegexMatch term then .value
      else .unknown :=
  rfl

lemma identifyTermKind_eq_span_iff (term : List Char) :
    identifyTermKind term = .span ↔ spanRegexMatch term = true := by
  rw [identifyTermKind_cases]
  cases hs : spanRegexMatch term <;> cases hw : wildcardRegexMatch term <;>
    cases hl : listRegexMatch term <;> cases hv : valueRegexMatch term <;>
    simp

lemma identifyTermKind_eq_wildcard_iff (term : List Char) :
    identifyTermKind term = .wildcard ↔ term = ['*'] := by
  rw [identifyTermKind_cases, ← wildcardRegexMatch_eq_true_iff]
  cases hs : spanRegexMatch term <;> cases hw : wildcardRegexMatch term <;>
    cases hl : listRegexMatch term <;> cases hv : valueRegexMatch term <;>
    simp <;>
    exact span_wildcard_excl term hs hw

lemma identifyTermKind_eq_list_iff (term : List Char) :
    identifyTermKind term = .list ↔ ',' ∈ term := by
  rw [identifyTermKind_cases, ← listRegexMatch_eq_true_iff]
  cases hs : spanRegexMatch term <;> cases hw : wildcardRegexMatch term <;>
    cases hl : listRegexMatch term <;> cases hv : valueRegexMatch term <;>
    simp <;>
    first
      | exact span_list_excl term hs hl
      | exact list_wildcard_excl term hl hw

lemma identifyTermKind_eq_value_iff (term : List Char) :
    identifyTermKind term = .value ↔ term ≠ [] ∧ term.all Char.isDigit = true := by
  rw [identifyTermKind_cases, ← valueRegexMatch_eq_true_iff]
  cases hs : spanRegexMatch term <;> cases hw : wildcardRegexMatch term <;>
    cases hl : listRegexMatch term <;> cases hv : valueRegexMatch term <;>
    simp <;>
    first
      | exact span_value_excl term hs hv
      | exact value_wildcard_excl term hv hw
      | exact list_value_excl term hl hv

lemma identifyTermKind_eq_unknown_iff (term : List Char) :
    identifyTermKind term = .unknown ↔
      spanRegexMatch term = false ∧ wildcardRegexMatch term = false ∧
        listRegexMatch term = false ∧ valueRegexMatch term = false := by
  rw [identifyTermKind_cases]
  cases hs : spanRegexMatch term <;> cases hw : wildcardRegexMatch term <;>
    cases hl : listRegexMatch term <;> cases hv : valueRegexMatch term <;>
    simp

/-! ## splitOnChar -/

lemma splitOnChar_ne_nil (sep : Char) (l : List Char) : splitOnChar sep l ≠ [] := by
  induction l with
  | nil => simp [splitOnChar]
  | cons c rest ih =>
    unfold splitOnChar
    by_cases hc : c = sep
    · simp [hc]
    · rw [if_neg hc]
      cases h : splitOnChar sep rest <;> simp

lemma splitOnChar_not_mem (sep : Char) (l : List Char) (h : sep ∉ l) :
    splitOnChar sep l = [l] := by
  induction l with
  | nil => rfl
  | cons c rest ih =>
    have hc : ¬c = sep := by
      intro hc
      exact h (by rw [hc]; exact List.mem_cons_self sep rest)
    have hr : sep ∉ rest := fun hm => h (List.mem_cons_of_mem c hm)
    unfold splitOnChar
    rw [if_neg hc, ih hr]

lemma splitOnChar_append (sep : Char) (l1 l2 : List Char) (h : sep ∉ l1) :
    splitOnChar sep (l1 ++ sep :: l2) = l1 :: splitOnChar sep l2 := by
  induction l1 with
  | nil => simp [splitOnChar]
  | cons c rest ih =>
    have hc : ¬c = sep := by
      intro hc
      exact h (by rw [hc]; exact List.mem_cons_self sep rest)
    have hr : sep ∉ rest := fun hm => h (List.mem_cons_of_mem c hm)
    simp only [List.cons_append, splitOnChar, List.append_eq]
    rw [if_neg hc, ih hr]

/-! ## strconv.Atoi on digit strings -/

lemma atoi_digits (d : List Char) (hne : d ≠ []) (hd : d.all Char.isDigit = true)
    (hle : (digitsToNat d : Int) ≤ 2 ^ 63 - 1) :
    atoi d = some ((digitsToNat d : Int)) := by
  cases d with
  | nil => exact absurd rfl hne
  | cons c rest =>
    have hc : c.isDigit = true := List.all_eq_true.mp hd c (by simp)
    have h1 : ¬(c = '-' ∨ c = '+') := by
      rintro (rfl | rfl) <;> exact absurd hc (by decide)
    have hcm : ¬c = '-' := fun hc2 => h1 (Or.inl hc2)
    have hnn : (0 : Int) ≤ (digitsToNat (c :: rest) : Int) := Int.natCast_nonneg _
    unfold atoi
    simp only [if_neg h1, if_neg hcm]
    rw [if_neg (by simp [hd]), if_neg (by push_neg; constructor <;> omega)]

/-! ## The parseListField loop -/

lemma parseListLoop_ok_of_all (fmin fmax : Int) (items : List (List Char))
    (acc : Finset Int)
    (h : ∀ i ∈ items, ∃ v, atoi i = some v ∧ fmin ≤ v ∧ v ≤ fmax) :
    parseListLoop fmin fmax items acc =
      .ok (acc ∪ (items.filterMap atoi).toFinset) := by
  induction items generalizing acc with
  | nil => simp [parseListLoop]
  | cons i rest ih =>
    obtain ⟨v, hv, hv1, hv2⟩ := h i (by simp)
    simp only [parseListLoop, hv]
    rw [if_neg (by omega), if_neg (by omega)]
    rw [ih (insert v acc) (fun j hj => h j (by simp [hj]))]
    congr 1
    rw [List.filterMap_cons_some hv]
    ext x
    simp only [Finset.mem_union, Finset.mem_insert, List.toFinset_cons, List.mem_toFinset]
    tauto

lemma parseListLoop_parseError (fmin fmax : Int) (pre : List (List Char))
    (bad : List Char) (rest : List (List Char)) (acc : Finset Int)
    (hpre : ∀ i ∈ pre, ∃ v, atoi i = some v ∧ fmin ≤ v ∧ v ≤ fmax)
    (hbad : atoi bad = none) :
    parseListLoop fmin fmax (pre ++ bad :: rest) acc = .error .parseError := by
  induction pre generalizing acc with
  | nil =>
    rw [List.nil_append]
    simp only [parseListLoop, hbad]
  | cons i pre2 ih =>
    obtain ⟨v, hv, hv1, hv2⟩ := hpre i (by simp)
    simp only [List.cons_append, parseListLoop, hv]
    rw [if_neg (by omega), if_neg (by omega)]
    exact ih (insert v acc) (fun j hj => hpre j (by simp [hj]))

lemma parseListLoop_boundsError (fmin fmax : Int) (pre : List (List Char))
    (bad : List Char) (rest : List (List Char)) (acc : Finset Int) (w : Int)
    (hpre : ∀ i ∈ pre, ∃ v, atoi i = some v ∧ fmin ≤ v ∧ v ≤ fmax)
    (hbad : atoi bad = some w) (hout : w < fmin ∨ w > fmax) :
    parseListLoop fmin fmax (pre ++ bad :: rest) acc = .error .boundsError := by
  induction pre generalizing acc with
  | nil =>
    rw [List.nil_append]
    simp only [parseListLoop, hbad]
    by_cases hlt : w < fmin
    · rw [if_pos hlt]
    · rw [if_neg hlt, if_pos (hout.resolve_left hlt)]
  | cons i pre2 ih =>
    obtain ⟨v, hv, hv1, hv2⟩ := hpre i (by simp)
    simp only [List.cons_append, parseListLoop, hv]
    rw [if_neg (by omega), if_neg (by omega)]
    exact ih (insert v acc) (fun j hj => hpre j (by simp [hj]))

lemma parseListLoop_ok_inv (fmin fmax : Int) (items : List (List Char))
    (acc s : Finset Int) (h : parseListLoop fmin fmax items acc = .ok s) :
    (∀ v ∈ acc, v ∈ s) ∧ ∀ v ∈ s, v ∈ acc ∨ (fmin ≤ v ∧ v ≤ fmax) := by
  induction items generalizing acc with
  | nil =>
    unfold parseListLoop at h
    cases h
    exact ⟨fun v hv => hv, fun v hv => .inl hv⟩
  | cons i rest ih =>
    cases hai : atoi i with
    | none =>
      simp only [parseListLoop, hai] at h
      exact Except.noConfusion h
    | some v =>
      simp only [parseListLoop, hai] at h
      by_cases hlt : v < fmin
      · rw [if_pos hlt] at h; cases h
      rw [if_neg hlt] at h
      by_cases hgt : v > fmax
      · rw [if_pos hgt] at h; cases h
      rw [if_neg hgt] at h
      obtain ⟨hsub, hbnd⟩ := ih (insert v acc) h
      refine ⟨fun w hw => hsub w (Finset.mem_insert_of_mem hw), fun w hw => ?_⟩
      rcases hbnd w hw with hw2 | hw2
      · rcases Finset.mem_insert.mp hw2 with rfl | hw3
        · exact .inr ⟨by omega, by omega⟩
        · exact .inl hw3
      · exact .inr hw2

/-! ## Able and New -/

lemma able_eq_true_iff (a : Timeframe) (t : GoTime) :
    able a t = true ↔
      (t.minute ∈ a.parsedExpression.minutes.values ∧
        t.hour ∈ a.parsedExpression.hours.values ∧
        t.day ∈ a.parsedExpression.days.values ∧
        t.month ∈ a.parsedExpression.months.values ∧
        t.weekday ∈ a.parsedExpression.weekdays.values ∧
        t.year ∈ a.parsedExpression.years.values) := by
  unfold able
  by_cases h1 : t.minute ∈ a.parsedExpression.minutes.values <;>
    by_cases h2 : t.hour ∈ a.parsedExpression.hours.values <;>
    by_cases h3 : t.day ∈ a.parsedExpression.days.values <;>
    by_cases h4 : t.month ∈ a.parsedExpression.months.values <;>
    by_cases h5 : t.weekday ∈ a.parsedExpression.weekdays.values <;>
    by_cases h6 : t.year ∈ a.parsedExpression.years.values <;>
    simp [h1, h2, h3, h4, h5, h6]

lemma able_zeroTimeframe (t : GoTime) : able zeroTimeframe t = false := by
  simp [able, zeroTimeframe, zeroField]

lemma newWith_cases (order : List ((List Char → Bool) × TermKind)) (s : List Char) :
    ((newWith order s).2.isSome = true ∧ (newWith order s).1 = zeroTimeframe) ∨
      ((newWith order s).2 = none ∧ (newWith order s).1.expression = s) := by
  unfold newWith
  split
  · split
    · repeat' split
      all_goals simp
    · simp
  · simp

lemma new_cases (s : List Char) :
    (((new s).2).isSome = true ∧ (new s).1 = zeroTimeframe) ∨
      ((new s).2 = none ∧ (new s).1.expression = s) :=
  newWith_cases regexKinds s

/-- A sample in-window instant (2020-06-15 was a Monday, 12:30). -/
def sampleTime : GoTime :=
  ⟨30, 12, 15, 6, 1, 2020⟩

/-! ## The claims -/

/-- C1, counterexample: `"* * * * * *"` parses, yet `Able` is `false` at the
instant 2101-01-01T00:00 (a Saturday) — a perfectly valid Go timestamp —
because the year wildcard only expands to `[1970, 2100]`.  So `matches`
does not return `true` for *every* timestamp regardless of its year. -/
theorem c1_counterexample :
    (new "* * * * * *".data).2 = none ∧
      ValidTime ⟨0, 0, 1, 1, 6, 2101⟩ ∧
      able (new "* * * * * *".data).1 ⟨0, 0, 1, 1, 6, 2101⟩ = false :=
  ⟨by decide, by decide, by decide⟩

/-- C1, amended: parsing `"* * * * * *"` succeeds, and `Able` returns
`true` on every valid timestamp whose year lies in `[1970, 2100]` (the
range the year wildcard expands to); the other five components of any
real timestamp always lie inside their fields' wildcard ranges. -/
theorem c1_amended :
    (new "* * * * * *".data).2 = none ∧
      ∀ t : GoTime, ValidTime t → 1970 ≤ t.year → t.year ≤ 2100 →
        able (new "* * * * * *".data).1 t = true := by
  constructor
  · decide
  · intro t hv hy1 hy2
    have hval : (new "* * * * * *".data).1 =
        ⟨"* * * * * *".data,
          ⟨⟨minute, "*".data, 0, 59, Finset.Icc 0 59⟩,
            ⟨hour, "*".data, 0, 23, Finset.Icc 0 23⟩,
            ⟨day, "*".data, 1, 31, Finset.Icc 1 31⟩,
            ⟨month, "*".data, 1, 12, Finset.Icc 1 12⟩,
            ⟨weekday, "*".data, 0, 6, Finset.Icc 0 6⟩,
            ⟨year, "*".data, 1970, 2100, Finset.Icc 1970 2100⟩⟩⟩ := by decide
    obtain ⟨ha1, ha2, hb1, hb2, hc1, hc2, hd1, hd2, he1, he2⟩ := hv
    rw [hval]
    have m1 : t.minute ∈ Finset.Icc (0 : Int) 59 := Finset.mem_Icc.mpr ⟨ha1, ha2⟩
    have m2 : t.hour ∈ Finset.Icc (0 : Int) 23 := Finset.mem_Icc.mpr ⟨hb1, hb2⟩
    have m3 : t.day ∈ Finset.Icc (1 : Int) 31 := Finset.mem_Icc.mpr ⟨hc1, hc2⟩
    have m4 : t.month ∈ Finset.Icc (1 : Int) 12 := Finset.mem_Icc.mpr ⟨hd1, hd2⟩
    have m5 : t.weekday ∈ Finset.Icc (0 : Int) 6 := Finset.mem_Icc.mpr ⟨he1, he2⟩
    have m6 : t.year ∈ Finset.Icc (1970 : Int) 2100 := Finset.mem_Icc.mpr ⟨hy1, hy2⟩
    simp [able, m1, m2, m3, m4, m5, m6]

/-- C1, witness: the amended theorem applied at 2020-06-15T12:30
(a Monday). -/
theorem c1_witness :
    able (new "* * * * * *".data).1 sampleTime = true :=
  c1_amended.2 sampleTime (by decide) (by decide) (by decide)

/-- C2: for a successfully parsed expression, `Able` is `true` iff each of
the six timestamp components is a member of the corresponding field's
`Values` set.  The Go loop tests the memberships in the fixed order
minute, hour, day, month, weekday, year and returns `false` at the first
failure — `able` embeds exactly that chain of tests, and this equivalence
is its observable content. -/
theorem c2_matches_iff (s : List Char) (t : GoTime) (_hok : (new s).2 = none) :
    able (new s).1 t = true ↔
      (t.minute ∈ (new s).1.parsedExpression.minutes.values ∧
        t.hour ∈ (new s).1.parsedExpression.hours.values ∧
        t.day ∈ (new s).1.parsedExpression.days.values ∧
        t.month ∈ (new s).1.parsedExpression.months.values ∧
        t.weekday ∈ (new s).1.parsedExpression.weekdays.values ∧
        t.year ∈ (new s).1.parsedExpression.years.values) :=
  able_eq_true_iff (new s).1 t

/-- C2, witness: the equivalence instantiated at the wildcard expression
and a concrete instant. -/
theorem c2_witness :
    able (new "* * * * * *".data).1 sampleTime = true ↔
      (sampleTime.minute ∈ (new "* * * * * *".data).1.parsedExpression.minutes.values ∧
        sampleTime.hour ∈ (new "* * * * * *".data).1.parsedExpression.hours.values ∧
        sampleTime.day ∈ (new "* * * * * *".data).1.parsedExpression.days.values ∧
        sampleTime.month ∈ (new "* * * * * *".data).1.parsedExpression.months.values ∧
        sampleTime.weekday ∈ (new "* * * * * *".data).1.parsedExpression.weekdays.values ∧
        sampleTime.year ∈ (new "* * * * * *".data).1.parsedExpression.years.values) :=
  c2_matches_iff "* * * * * *".data sampleTime (by decide)

/-- C9: `New` is atomic — whenever it returns a non-nil error the
accompanying value is the zero `Timeframe` (no partially built
expression), and on success the returned `Timeframe` stores the input
expression string verbatim. -/
theorem c9_atomic (s : List Char) :
    (((new s).2).isSome = true → (new s).1 = zeroTimeframe) ∧
      ((new s).2 = none → (new s).1.expression = s) := by
  rcases new_cases s with ⟨h1, h2⟩ | ⟨h1, h2⟩
  · refine ⟨fun _ => h2, fun hn => ?_⟩
    rw [hn] at h1
    exact absurd h1 (by simp)
  · refine ⟨fun hsome => ?_, fun _ => h2⟩
    rw [h1] at hsome
    exact absurd hsome (by simp)

/-- C9, witness: a failing parse returns the zero `Timeframe`, and the
wildcard parse stores its input verbatim. -/
theorem c9_witness :
    (new "bad".data).1 = zeroTimeframe ∧
      (new "* * * * * *".data).1.expression = "* * * * * *".data :=
  ⟨(c9_atomic "bad".data).1 (by decide),
    (c9_atomic "* * * * * *".data).2 (by decide)⟩

/-- C10: `Able` is total on the zero `Timeframe` that accompanies every
parse error — all six `Values` sets are empty (nil maps), so it returns
`false` on every timestamp rather than failing. -/
theorem c10_total_on_error (s : List Char) (t : GoTime)
    (h : ((new s).2).isSome = true) :
    able (new s).1 t = false := by
  rcases new_cases s with ⟨_, h2⟩ | ⟨h1, _⟩
  · rw [h2]
    exact able_zeroTimeframe t
  · rw [h1] at h
    exact absurd h (by simp)

/-- C10, witness: the theorem applied to a failing input and a concrete
instant. -/
theorem c10_witness :
    able (new "bad".data).1 sampleTime = false :=
  c10_total_on_error "bad".data sampleTime (by decide)

/-- C3, counterexample: the span term `0-9223372036854775808` has two
nonnegative decimal literals with `a < b`, `a ≥ min` and `b > max`, so
the claim demands a BoundsError — but `strconv.Atoi` fails on the second
literal (`2^63` exceeds `int64`), so the code fails with a ParseError
instead. -/
theorem c3_counterexample :
    newField minute "0-9223372036854775808".data 0 59 = .error .parseError ∧
      (Except.error FieldError.parseError : Except FieldError Field) ≠
        .error .boundsError :=
  ⟨by rfl, by decide⟩

/-- C3, amended: for span terms `a-b` whose two digit literals both fit in
`int64` (with `b` below `maxInt64`, where the expansion loop is
well-defined), `newField` fails with a RangeOrderError if `a ≥ b`,
otherwise with a BoundsError if `a < min` or `b > max`, and otherwise
succeeds with `values` exactly the inclusive integer range `[a, b]`. -/
theorem c3_amended (kind d1 d2 : List Char) (fmin fmax : Int)
    (h1 : d1 ≠ []) (h2 : d1.all Char.isDigit = true)
    (h3 : d2 ≠ []) (h4 : d2.all Char.isDigit = true)
    (ha : (digitsToNat d1 : Int) ≤ 2 ^ 63 - 1)
    (hb : (digitsToNat d2 : Int) < 2 ^ 63 - 1) :
    newField kind (d1 ++ '-' :: d2) fmin fmax =
      if (digitsToNat d1 : Int) ≥ (digitsToNat d2 : Int) then .error .rangeOrderError
      else if (digitsToNat d1 : Int) < fmin then .error .boundsError
      else if (digitsToNat d2 : Int) > fmax then .error .boundsError
      else .ok ⟨kind, d1 ++ '-' :: d2, fmin, fmax,
        Finset.Icc (digitsToNat d1) (digitsToNat d2)⟩ := by
  have hspan : identifyTermKindWith regexKinds (d1 ++ '-' :: d2) = .span :=
    (identifyTermKind_eq_span_iff _).mpr
      ((spanRegexMatch_eq_true_iff _).mpr ⟨d1, d2, rfl, h1, h2, h3, h4⟩)
  have hdash1 : '-' ∉ d1 := fun hm =>
    absurd (List.all_eq_true.mp h2 '-' hm) (by decide)
  have hdash2 : '-' ∉ d2 := fun hm =>
    absurd (List.all_eq_true.mp h4 '-' hm) (by decide)
  have hsplit : splitOnChar '-' (d1 ++ '-' :: d2) = [d1, d2] := by
    rw [splitOnChar_append '-' d1 d2 hdash1, splitOnChar_not_mem '-' d2 hdash2]
  have hat1 : atoi d1 = some ((digitsToNat d1 : Int)) := atoi_digits d1 h1 h2 ha
  have hat2 : atoi d2 = some ((digitsToNat d2 : Int)) :=
    atoi_digits d2 h3 h4 (by omega)
  have hwrap : newField kind (d1 ++ '-' :: d2) fmin fmax =
      match parseSpanField (d1 ++ '-' :: d2) fmin fmax with
      | .error e => .error e
      | .ok vals => .ok ⟨kind, d1 ++ '-' :: d2, fmin, fmax, vals⟩ := by
    unfold newField newFieldWith fieldParseWith
    rw [hspan]
  rw [hwrap]
  simp only [parseSpanField, hsplit, hat1, hat2]
  by_cases hab : (digitsToNat d1 : Int) ≥ (digitsToNat d2 : Int)
  · simp only [if_pos hab]
  · simp only [if_neg hab]
    by_cases hmin : (digitsToNat d1 : Int) < fmin
    · simp only [if_pos hmin]
    · simp only [if_neg hmin]
      by_cases hmaxc : (digitsToNat d2 : Int) > fmax
      · simp only [if_pos hmaxc]
      · simp only [if_neg hmaxc]
        rw [generateSequentialSet, if_neg (by omega)]

/-- C3, witness: the amended theorem applied to the span `2-5` for the
minute field. -/
theorem c3_witness :
    newField minute "2-5".data 0 59 =
      .ok ⟨minute, "2-5".data, 0, 59, Finset.Icc 2 5⟩ :=
  (c3_amended minute ['2'] ['5'] 0 59 (by decide) (by decide) (by decide)
      (by decide) (by decide) (by decide)).trans (by decide)

/-- C4, counterexample: the list term `1,+5` contains an item with a
leading `+`, which the claim says must fail with a ParseError — but
`strconv.Atoi` accepts an optional sign, so the build succeeds with
`values = {1, 5}`. -/
theorem c4_counterexample :
    newField minute "1,+5".data 0 59 =
        .ok ⟨minute, "1,+5".data, 0, 59, {5, 1}⟩ ∧
      newField minute "1,+5".data 0 59 ≠ .error .parseError :=
  ⟨by rfl, by decide⟩

/-- C4, amended: for every term containing a comma, `newField` splits on
commas and parses each item with `strconv.Atoi` (which accepts an
optional leading sign and requires the value to fit in `int64`): it fails
with a ParseError at the first item `Atoi` rejects — empty items
included — fails with a BoundsError at the first parsed value outside
`[min, max]` (so a negative item hits the bounds check, not the parse),
and otherwise succeeds with `values` the set union of the parsed item
values. -/
theorem c4_amended (kind term : List Char) (fmin fmax : Int)
    (hcomma : ',' ∈ term) :
    ((∀ i ∈ splitOnChar ',' term, ∃ v, atoi i = some v ∧ fmin ≤ v ∧ v ≤ fmax) →
        newField kind term fmin fmax =
          .ok ⟨kind, term, fmin, fmax,
            ((splitOnChar ',' term).filterMap atoi).toFinset⟩) ∧
      (∀ pre bad rest, splitOnChar ',' term = pre ++ bad :: rest →
        (∀ i ∈ pre, ∃ v, atoi i = some v ∧ fmin ≤ v ∧ v ≤ fmax) →
        atoi bad = none →
        newField kind term fmin fmax = .error .parseError) ∧
      (∀ pre bad rest w, splitOnChar ',' term = pre ++ bad :: rest →
        (∀ i ∈ pre, ∃ v, atoi i = some v ∧ fmin ≤ v ∧ v ≤ fmax) →
        atoi bad = some w → (w < fmin ∨ w > fmax) →
        newField kind term fmin fmax = .error .boundsError) := by
  have hlist : identifyTermKindWith regexKinds term = .list :=
    (identifyTermKind_eq_list_iff term).mpr hcomma
  have hwrap : newField kind term fmin fmax =
      match parseListField term fmin fmax with
      | .error e => .error e
      | .ok vals => .ok ⟨kind, term, fmin, fmax, vals⟩ := by
    unfold newField newFieldWith fieldParseWith
    rw [hlist]
  refine ⟨fun hall => ?_, fun pre bad rest hsp hpre hbad => ?_,
    fun pre bad rest w hsp hpre hbad hout => ?_⟩
  · rw [hwrap]
    unfold parseListField
    rw [parseListLoop_ok_of_all fmin fmax (splitOnChar ',' term) ∅ hall]
    rw [Finset.empty_union]
  · rw [hwrap]
    unfold parseListField
    rw [hsp, parseListLoop_parseError fmin fmax pre bad rest ∅ hpre hbad]
  · rw [hwrap]
    unfold parseListField
    rw [hsp, parseListLoop_boundsError fmin fmax pre bad rest ∅ w hpre hbad hout]

/-- C4, witness: the amended theorem applied to a fully valid list, a
list with an empty item, and a list with an out-of-bounds item. -/
theorem c4_witness :
    newField minute "1,2".data 0 59 =
        .ok ⟨minute, "1,2".data, 0, 59,
          ((splitOnChar ',' "1,2".data).filterMap atoi).toFinset⟩ ∧
      newField minute "1,,2".data 0 59 = .error .parseError ∧
      newField minute "1,99".data 0 59 = .error .boundsError := by
  refine ⟨(c4_amended minute "1,2".data 0 59 (by decide)).1 ?_,
    (c4_amended minute "1,,2".data 0 59 (by decide)).2.1
      [['1']] [] [['2']] (by decide) ?_ (by decide),
    (c4_amended minute "1,99".data 0 59 (by decide)).2.2
      [['1']] ['9', '9'] [] 99 (by decide) ?_ (by decide) (by decide)⟩
  · intro i hi
    rw [show splitOnChar ',' "1,2".data = [['1'], ['2']] from rfl] at hi
    rcases List.mem_cons.mp hi with rfl | hi2
    · exact ⟨1, by decide, by decide, by decide⟩
    rcases List.mem_cons.mp hi2 with rfl | hi3
    · exact ⟨2, by decide, by decide, by decide⟩
    · exact absurd hi3 (List.not_mem_nil i)
  · intro i hi
    rcases List.mem_cons.mp hi with rfl | hi2
    · exact ⟨1, by decide, by decide, by decide⟩
    · exact absurd hi2 (List.not_mem_nil i)
  · intro i hi
    rcases List.mem_cons.mp hi with rfl | hi2
    · exact ⟨1, by decide, by decide, by decide⟩
    · exact absurd hi2 (List.not_mem_nil i)

/-- C5: the classifier, the field builder, and `New` are deterministic
despite `identifyTermKind` iterating a Go map — for any iteration order
(any permutation of the regex-to-kind pairs), classification, the built
field, and the parsed expression are identical to the canonical results,
because no term matches more than one of the four regexes.  In
particular two calls of `New` on the same string — even with different
map-iteration orders — yield equal `Values` sets for every field. -/
theorem c5_deterministic (order : List ((List Char → Bool) × TermKind))
    (h : order.Perm regexKinds) :
    (∀ term, identifyTermKindWith order term = identifyTermKind term) ∧
      (∀ kind term fmin fmax,
        newFieldWith order kind term fmin fmax = newField kind term fmin fmax) ∧
      (∀ s, newWith order s = new s) := by
  have hid : ∀ term, identifyTermKindWith order term = identifyTermKind term :=
    fun term => identifyTermKindWith_perm order h term
  have hfield : ∀ kind term fmin fmax,
      newFieldWith order kind term fmin fmax = newField kind term fmin fmax := by
    intro kind term fmin fmax
    unfold newFieldWith fieldParseWith
    rw [hid term]
    rfl
  refine ⟨hid, hfield, fun s => ?_⟩
  unfold newWith new
  simp only [hfield]
  rfl

/-- C5, witness: reversing the map-iteration order classifies a span term
identically. -/
theorem c5_witness :
    identifyTermKindWith regexKinds.reverse "1-2".data =
      identifyTermKind "1-2".data :=
  (c5_deterministic regexKinds.reverse (List.reverse_perm regexKinds)).1 "1-2".data

/-- C6, counterexample: `newField` with the wildcard term and bounds
`min = 1 > 0 = max` succeeds, but the expansion loop produces the empty
set — so the members of a successful build are not always non-empty. -/
theorem c6_counterexample :
    newField minute "*".data 1 0 = .ok ⟨minute, "*".data, 1, 0, ∅⟩ := by
  decide

/-- C6, amended: whenever `min ≤ max` (true of all six field kinds'
bounds) and `max` stays below `maxInt64` (where the expansion loop's
upper bound `max+1` would overflow), every `Field` a successful
`newField` call produces has a non-empty `Values` set contained in
`[min, max]`. -/
theorem c6_amended (kind term : List Char) (fmin fmax : Int) (f : Field)
    (hle : fmin ≤ fmax) (hmax : fmax ≤ 2 ^ 63 - 2)
    (hok : newField kind term fmin fmax = .ok f) :
    f.values.Nonempty ∧ ∀ v ∈ f.values, fmin ≤ v ∧ v ≤ fmax := by
  unfold newField newFieldWith at hok
  cases hps : fieldParseWith regexKinds term fmin fmax with
  | error e =>
    simp only [hps] at hok
    exact Except.noConfusion hok
  | ok vals =>
    simp only [hps] at hok
    injection hok with hf
    subst hf
    show vals.Nonempty ∧ ∀ v ∈ vals, fmin ≤ v ∧ v ≤ fmax
    unfold fieldParseWith at hps
    split at hps
    · -- wildcard
      injection hps with hv
      subst hv
      rw [parseWildcardField, generateSequentialSet, if_neg (by omega)]
      exact ⟨Finset.nonempty_Icc.mpr hle, fun v hv2 => Finset.mem_Icc.mp hv2⟩
    · -- span
      unfold parseSpanField at hps
      repeat' split at hps
      all_goals try exact Except.noConfusion hps
      injection hps with hv
      subst hv
      rw [generateSequentialSet, if_neg (by omega)]
      refine ⟨Finset.nonempty_Icc.mpr (by omega), fun v hv2 => ?_⟩
      have := Finset.mem_Icc.mp hv2
      omega
    · -- value
      unfold parseValueField at hps
      repeat' split at hps
      all_goals try exact Except.noConfusion hps
      injection hps with hv
      subst hv
      refine ⟨Finset.singleton_nonempty _, fun v hv2 => ?_⟩
      rw [Finset.mem_singleton] at hv2
      subst hv2
      omega
    · -- list
      unfold parseListField at hps
      have hinv := parseListLoop_ok_inv fmin fmax (splitOnChar ',' term) ∅ vals hps
      refine ⟨?_, fun v hv2 => ?_⟩
      · cases hitems : splitOnChar ',' term with
        | nil => exact absurd hitems (splitOnChar_ne_nil ',' term)
        | cons i rest =>
          rw [hitems] at hps
          cases hat : atoi i with
          | none =>
            simp only [parseListLoop, hat] at hps
            exact Except.noConfusion hps
          | some w =>
            simp only [parseListLoop, hat] at hps
            by_cases hw1 : w < fmin
            · rw [if_pos hw1] at hps
              exact Except.noConfusion hps
            rw [if_neg hw1] at hps
            by_cases hw2 : w > fmax
            · rw [if_pos hw2] at hps
              exact Except.noConfusion hps
            rw [if_neg hw2] at hps
            have hsub := (parseListLoop_ok_inv fmin fmax rest (insert w ∅) vals hps).1
            exact ⟨w, hsub w (Finset.mem_insert_self w ∅)⟩
      · rcases hinv.2 v hv2 with hv3 | hv3
        · exact absurd hv3 (Finset.not_mem_empty v)
        · exact hv3
    · -- unknown
      exact Except.noConfusion hps

/-- C6, witness: the amended theorem applied to the minute value term
`5`. -/
theorem c6_witness :
    (Field.mk minute "5".data 0 59 {5}).values.Nonempty :=
  (c6_amended minute "5".data 0 59 ⟨minute, "5".data, 0, 59, {5}⟩
    (by decide) (by decide) (by decide)).1

/-- C7, counterexample: for the minute field, `min - 1 = -1`, and the
term `-1` matches none of the four term regexes, so `newField` fails
with the unrecognized-term error — not with a BoundsError as the claim
requires. -/
theorem c7_counterexample :
    newField minute "-1".data 0 59 = .error .unknownTerm ∧
      (Except.error FieldError.unknownTerm : Except FieldError Field) ≠
        .error .boundsError :=
  ⟨by rfl, by decide⟩

/-- C7, amended: for each field kind, the terms `min` and `max` are
accepted, and `max + 1` is rejected with a BoundsError; `min - 1` is
rejected with a BoundsError for day, month and year (where `min - 1 ≥ 0`
is still a valid term), but for minute, hour and weekday `min - 1 = -1`
matches no term grammar and is rejected with the unrecognized-term error
instead. -/
theorem c7_amended :
    newField minute "0".data 0 59 = .ok ⟨minute, "0".data, 0, 59, {0}⟩ ∧
      newField minute "59".data 0 59 = .ok ⟨minute, "59".data, 0, 59, {59}⟩ ∧
      newField hour "0".data 0 23 = .ok ⟨hour, "0".data, 0, 23, {0}⟩ ∧
      newField hour "23".data 0 23 = .ok ⟨hour, "23".data, 0, 23, {23}⟩ ∧
      newField day "1".data 1 31 = .ok ⟨day, "1".data, 1, 31, {1}⟩ ∧
      newField day "31".data 1 31 = .ok ⟨day, "31".data, 1, 31, {31}⟩ ∧
      newField month "1".data 1 12 = .ok ⟨month, "1".data, 1, 12, {1}⟩ ∧
      newField month "12".data 1 12 = .ok ⟨month, "12".data, 1, 12, {12}⟩ ∧
      newField weekday "0".data 0 6 = .ok ⟨weekday, "0".data, 0, 6, {0}⟩ ∧
      newField weekday "6".data 0 6 = .ok ⟨weekday, "6".data, 0, 6, {6}⟩ ∧
      newField year "1970".data 1970 2100 =
        .ok ⟨year, "1970".data, 1970, 2100, {1970}⟩ ∧
      newField year "2100".data 1970 2100 =
        .ok ⟨year, "2100".data, 1970, 2100, {2100}⟩ ∧
      newField minute "60".data 0 59 = .error .boundsError ∧
      newField hour "24".data 0 23 = .error .boundsError ∧
      newField day "32".data 1 31 = .error .boundsError ∧
      newField month "13".data 1 12 = .error .boundsError ∧
      newField weekday "7".data 0 6 = .error .boundsError ∧
      newField year "2101".data 1970 2100 = .error .boundsError ∧
      newField day "0".data 1 31 = .error .boundsError ∧
      newField month "0".data 1 12 = .error .boundsError ∧
      newField year "1969".data 1970 2100 = .error .boundsError ∧
      newField minute "-1".data 0 59 = .error .unknownTerm ∧
      newField hour "-1".data 0 23 = .error .unknownTerm ∧
      newField weekday "-1".data 0 6 = .error .unknownTerm :=
  ⟨rfl, rfl, rfl, rfl, rfl, rfl, rfl, rfl, rfl, rfl, rfl, rfl, rfl, rfl,
    rfl, rfl, rfl, rfl, rfl, rfl, rfl, rfl, rfl, rfl⟩

/-- C8: the classifier is total (it is a Lean function, so it returns a
kind on every string and never fails) and classifies exactly as claimed:
`wildcard` precisely for `*`, `span` precisely for digits-hyphen-digits,
`list` precisely for terms containing a comma (regardless of item
validity), `value` precisely for nonempty all-digit terms, and `unknown`
for everything else. -/
theorem c8_classifier_total (s : List Char) :
    (identifyTermKind s = .wildcard ↔ s = ['*']) ∧
      (identifyTermKind s = .span ↔
        ∃ d1 d2, s = d1 ++ '-' :: d2 ∧ d1 ≠ [] ∧ d1.all Char.isDigit = true ∧
          d2 ≠ [] ∧ d2.all Char.isDigit = true) ∧
      (identifyTermKind s = .list ↔ ',' ∈ s) ∧
      (identifyTermKind s = .value ↔ s ≠ [] ∧ s.all Char.isDigit = true) ∧
      (identifyTermKind s = .unknown ↔
        ¬(s = ['*']) ∧
          ¬(∃ d1 d2, s = d1 ++ '-' :: d2 ∧ d1 ≠ [] ∧ d1.all Char.isDigit = true ∧
              d2 ≠ [] ∧ d2.all Char.isDigit = true) ∧
          ¬(',' ∈ s) ∧ ¬(s ≠ [] ∧ s.all Char.isDigit = true)) := by
  refine ⟨identifyTermKind_eq_wildcard_iff s,
    (identifyTermKind_eq_span_iff s).trans (spanRegexMatch_eq_true_iff s),
    identifyTermKind_eq_list_iff s,
    identifyTermKind_eq_value_iff s, ?_⟩
  rw [identifyTermKind_eq_unknown_iff]
  rw [← spanRegexMatch_eq_true_iff, ← wildcardRegexMatch_eq_true_iff,
    ← listRegexMatch_eq_true_iff, ← valueRegexMatch_eq_true_iff]
  constructor
  · rintro ⟨h1, h2, h3, h4⟩
    exact ⟨by simp [h2], by simp [h1], by simp [h3], by simp [h4]⟩
  · rintro ⟨h1, h2, h3, h4⟩
    exact ⟨by simpa using h2, by simpa using h1, by simpa using h3,
      by simpa using h4⟩

end Avail
